/-
Verification of the rdgproto wire protocol (LyrinoxTechnologies/ridged-proto).

Shallow embedding of the Go sources under src/rdgproto (message.go,
serialize.go) and the package declarations (types.go contents found in
src/unnamed/part_004).  Bytes are modelled as `Nat` values below 256 in
`List Nat`; Go's `uint32`/`uint64` arithmetic is modelled with `% 2^32` /
`% 2^64` where overflow matters; fallible operations return `Except Err`.
-/
import Mathlib

namespace RdgProto

/-! ## Constants (types.go / part_004, message.go) -/

/-- MaxPayloadSize from message.go: 100 MiB. -/
def maxPayloadSize : Nat := 100 * 1024 * 1024

def messageTypeSize : Nat := 1
def messageIDSize : Nat := 4
def payloadLengthSize : Nat := 4
/-- HeaderSize = type + id + payload-length field widths = 9. -/
def headerSize : Nat := messageTypeSize + messageIDSize + payloadLengthSize
def signatureLengthSize : Nat := 4

def messageTypeStreamStart : Nat := 250
def messageTypeStreamChunk : Nat := 251
def messageTypeStreamEnd : Nat := 252

def streamingThreshold : Nat := 1024 * 1024
def defaultChunkSize : Nat := 64 * 1024

/-- IsReservedType from part_004: message types ≥ 250 are reserved. -/
def isReservedType (messageType : Nat) : Bool := 250 ≤ messageType

/-- Error discriminants of the Go package (errors.New values), plus `eof`
for the IO errors surfaced by short reads (`io.ReadFull` / `ReadByte`). -/
inductive Err where
  | invalidMessage
  | payloadTooLarge
  | signatureRequired
  | invalidSignature
  | streamInterrupted
  | streamMismatch
  | invalidPayloadType
  | unknownMessageType
  | bufferTooSmall
  | invalidStringLen
  | invalidBytesLen
  | varintOverflow
  | eof
deriving DecidableEq, Repr

/-- Decidable equality on `Except`, for evaluating the model on concrete
inputs. -/
instance {e a : Type} [DecidableEq e] [DecidableEq a] : DecidableEq (Except e a)
  | .error x, .error y =>
    if h : x = y then .isTrue (by rw [h]) else .isFalse (fun hc => h (by injection hc))
  | .error _, .ok _ => .isFalse (fun hc => Except.noConfusion hc)
  | .ok _, .error _ => .isFalse (fun hc => Except.noConfusion hc)
  | .ok x, .ok y =>
    if h : x = y then .isTrue (by rw [h]) else .isFalse (fun hc => h (by injection hc))

/-! ## Primitive codec (serialize.go) -/

/-- WriteVarint from serialize.go: LEB128, 7-bit little-endian groups,
MSB = continuation.  `while v >= 0x80 { write byte(v)|0x80; v >>= 7 }`. -/
def writeVarint (v : Nat) : List Nat :=
  if h : v < 128 then [v]
  else (v % 128 + 128) :: writeVarint (v / 128)
termination_by v
decreasing_by exact Nat.div_lt_self (by omega) (by omega)

/-- The loop body of ReadVarint from serialize.go, on a byte list.
Per iteration: read a byte; `if shift >= 64` fail with varint overflow;
`result |= uint64(b&0x7F) << shift` (64-bit truncating); stop when the
continuation bit is clear; else `shift += 7`. -/
def readVarintAux : List Nat → Nat → Nat → Except Err (Nat × List Nat)
  | [], _, _ => .error .eof
  | b :: rest, shift, acc =>
    if 64 ≤ shift then .error .varintOverflow
    else
      let acc' := acc ||| (((b % 128) <<< shift) % 2 ^ 64)
      if b < 128 then .ok (acc', rest)
      else readVarintAux rest (shift + 7) acc'

/-- ReadVarint from serialize.go. -/
def readVarint (l : List Nat) : Except Err (Nat × List Nat) :=
  readVarintAux l 0 0

/-- A reader step consuming one byte (`ReadByte`). -/
def readByteL : List Nat → Except Err (Nat × List Nat)
  | [] => .error .eof
  | b :: rest => .ok (b, rest)

/-- `io.ReadFull` of `n` bytes from a byte-list reader. -/
def readN (n : Nat) (l : List Nat) : Except Err (List Nat × List Nat) :=
  if l.length < n then .error .eof else .ok (l.take n, l.drop n)

/-- Big-endian value of a byte list (as read by `binary.Read` BigEndian). -/
def beVal (bs : List Nat) : Nat :=
  bs.foldl (fun a b => a * 256 + b % 256) 0

/-- WriteUint32Fixed / `binary.Write` big-endian of a uint32 value. -/
def writeUint32BE (v : Nat) : List Nat :=
  [v / 2 ^ 24 % 256, v / 2 ^ 16 % 256, v / 2 ^ 8 % 256, v % 256]

/-- ReadUint32Fixed / `binary.Read` big-endian uint32 from a reader. -/
def readU32 (l : List Nat) : Except Err (Nat × List Nat) :=
  match readN 4 l with
  | .error e => .error e
  | .ok (bs, rest) => .ok (beVal bs, rest)

/-- ReadUint32 from serialize.go: varint, then reject values above
0xFFFFFFFF with the varint-overflow error. -/
def readUint32V (l : List Nat) : Except Err (Nat × List Nat) :=
  match readVarint l with
  | .error e => .error e
  | .ok (v, rest) =>
    if 0xFFFFFFFF < v then .error .varintOverflow else .ok (v, rest)

/-- ReadUint64 from serialize.go: plain varint. -/
def readUint64V (l : List Nat) : Except Err (Nat × List Nat) := readVarint l

/-- ReadBytes from serialize.go: varint length, 1 GiB bound, then the raw
octets. -/
def readBytesV (l : List Nat) : Except Err (List Nat × List Nat) :=
  match readVarint l with
  | .error e => .error e
  | .ok (len, rest) =>
    if 2 ^ 30 < len then .error .invalidBytesLen
    else readN len rest

/-! ## Payload data model (part_004, serialize.go) -/

/-- StreamHeader (payload of reserved type 250). -/
structure StreamHeader where
  originalType : Nat
  totalSize : Nat
  totalChunks : Nat
deriving DecidableEq, Repr

/-- StreamChunk (payload of reserved type 251). -/
structure StreamChunk where
  chunkIndex : Nat
  data : List Nat
deriving DecidableEq, Repr

/-- The payload values that occur in the library: raw byte slices
(`[]byte`, also the `nil` payload as `[]`), and the two built-in
marshal/unmarshal payload types. -/
inductive Payload where
  | raw (bs : List Nat)
  | streamHeader (h : StreamHeader)
  | streamChunk (c : StreamChunk)
deriving DecidableEq, Repr

/-- StreamHeader.Marshal: original type byte, varint total size, varint
total chunks. -/
def streamHeaderMarshal (h : StreamHeader) : List Nat :=
  h.originalType :: (writeVarint h.totalSize ++ writeVarint h.totalChunks)

/-- StreamHeader.Unmarshal. -/
def streamHeaderUnmarshal (data : List Nat) : Except Err Payload :=
  match readByteL data with
  | .error e => .error e
  | .ok (t, r1) =>
    match readUint64V r1 with
    | .error e => .error e
    | .ok (s, r2) =>
      match readUint32V r2 with
      | .error e => .error e
      | .ok (c, _) => .ok (.streamHeader ⟨t, s, c⟩)

/-- StreamChunk.Marshal: varint chunk index, then length-prefixed data. -/
def streamChunkMarshal (c : StreamChunk) : List Nat :=
  writeVarint c.chunkIndex ++ (writeVarint c.data.length ++ c.data)

/-- StreamChunk.Unmarshal. -/
def streamChunkUnmarshal (data : List Nat) : Except Err Payload :=
  match readUint32V data with
  | .error e => .error e
  | .ok (i, r1) =>
    match readBytesV r1 with
    | .error e => .error e
    | .ok (d, _) => .ok (.streamChunk ⟨i, d⟩)

/-- MarshalPayload from serialize.go: nil → empty, `[]byte` passes
through, marshaler payloads use their Marshal method.  (In this model
every `Payload` value is marshalable, so the function is total.) -/
def marshalPayload : Payload → List Nat
  | .raw bs => bs
  | .streamHeader h => streamHeaderMarshal h
  | .streamChunk c => streamChunkMarshal c

/-! ## Payload registry (part_004) -/

/-- The decoder factories that exist in the library: the two built-ins
pre-installed for types 250 and 251. -/
inductive Factory where
  | streamHeaderF
  | streamChunkF
deriving DecidableEq, Repr

/-- Running a factory: produce a fresh value and call its Unmarshal. -/
def runFactory : Factory → List Nat → Except Err Payload
  | .streamHeaderF, data => streamHeaderUnmarshal data
  | .streamChunkF, data => streamChunkUnmarshal data

/-- A PayloadRegistry's handler map, `map[byte]PayloadFactory`. -/
def Registry : Type := Nat → Option Factory

/-- NewPayloadRegistry: empty map, then registerStreamingTypes installs
the factories for types 250 (StreamHeader) and 251 (StreamChunk). -/
def newPayloadRegistry : Registry := fun t =>
  if t = messageTypeStreamStart then some .streamHeaderF
  else if t = messageTypeStreamChunk then some .streamChunkF
  else none

/-- Register: silently ignored for reserved types, else map insert. -/
def register (r : Registry) (messageType : Nat) (factory : Factory) : Registry :=
  if isReservedType messageType then r
  else fun t => if t = messageType then some factory else r t

/-- Unregister: silently ignored for reserved types, else map delete. -/
def unregister (r : Registry) (messageType : Nat) : Registry :=
  if isReservedType messageType then r
  else fun t => if t = messageType then none else r t

/-- Get: map access, nil when absent. -/
def regGet (r : Registry) (messageType : Nat) : Option Factory := r messageType

/-- Has: key-presence test. -/
def regHas (r : Registry) (messageType : Nat) : Bool := (r messageType).isSome

/-- globalRegistry: the process-wide registry, freshly constructed. -/
def globalRegistry : Registry := newPayloadRegistry

/-- UnmarshalPayloadWithRegistryStrict from serialize.go. -/
def unmarshalPayloadWithRegistryStrict (messageType : Nat) (data : List Nat)
    (registry : Registry) (strict : Bool) : Except Err Payload :=
  match regGet registry messageType with
  | some f => runFactory f data
  | none =>
    if strict then .error .unknownMessageType
    else .ok (.raw data)

/-- UnmarshalPayloadStrict: same, against the global registry. -/
def unmarshalPayloadStrict (messageType : Nat) (data : List Nat)
    (strict : Bool) : Except Err Payload :=
  unmarshalPayloadWithRegistryStrict messageType data globalRegistry strict

/-- UnmarshalPayload: non-strict decode against the global registry. -/
def unmarshalPayload (messageType : Nat) (data : List Nat) : Except Err Payload :=
  unmarshalPayloadStrict messageType data false

/-! ## Message codec (message.go) -/

/-- StreamConfig from part_004. -/
structure StreamConfig where
  threshold : Nat
  chunkSize : Nat
  enabled : Bool
deriving DecidableEq, Repr

/-- DefaultStreamConfig. -/
def defaultStreamConfig : StreamConfig :=
  { threshold := streamingThreshold, chunkSize := defaultChunkSize, enabled := true }

/-- MessageOptions from message.go.  Signer and Verifier capabilities are
modelled as total functions (`Sign` of the concrete HMAC signer never
fails; `Verify` either accepts or rejects). -/
structure MessageOptions where
  signer : Option (List Nat → List Nat) := none
  verifier : Option (List Nat → List Nat → Bool) := none
  registry : Option Registry := none
  streamConfig : Option StreamConfig := none
  strictMode : Bool := false

/-- Message from part_004 (nil signature modelled as `[]`). -/
structure Message where
  type : Nat
  id : Nat
  payload : List Nat
  signature : List Nat
deriving DecidableEq, Repr

/-- MarshalMessage from message.go:
`[Type(1)][ID(4, BE)][PayloadLen(4, BE)][Payload][SigLen(4, BE)][Sig]`,
rejecting payloads longer than 100 MiB before writing. -/
def marshalMessage (messageType : Nat) (messageID : Nat) (payload : Payload)
    (opts : Option MessageOptions) : Except Err (List Nat) :=
  let payloadBytes := marshalPayload payload
  if maxPayloadSize < payloadBytes.length then .error .payloadTooLarge
  else
    let body := messageType :: (writeUint32BE messageID ++
      writeUint32BE payloadBytes.length ++ payloadBytes)
    match opts with
    | some o =>
      match o.signer with
      | some s =>
        let signature := s body
        .ok (body ++ writeUint32BE signature.length ++ signature)
      | none => .ok (body ++ writeUint32BE 0)
    | none => .ok (body ++ writeUint32BE 0)

/-- UnmarshalMessage from message.go: length guard, header reads,
100 MiB bound on the declared payload length, payload and signature
reads, optional verification over header + payload, then payload
decoding through the registry honouring strict mode. -/
def unmarshalMessage (data : List Nat) (opts : Option MessageOptions) :
    Except Err (Message × Payload) :=
  if data.length < headerSize + signatureLengthSize then .error .invalidMessage
  else
    match readByteL data with
    | .error e => .error e
    | .ok (messageType, r1) =>
    match readU32 r1 with
    | .error e => .error e
    | .ok (messageID, r2) =>
    match readU32 r2 with
    | .error e => .error e
    | .ok (payloadLen, r3) =>
    if maxPayloadSize < payloadLen then .error .payloadTooLarge
    else
    match readN payloadLen r3 with
    | .error e => .error e
    | .ok (payload, r4) =>
    match readU32 r4 with
    | .error e => .error e
    | .ok (sigLen, r5) =>
    match (if 0 < sigLen then readN sigLen r5 else .ok ([], r5)) with
    | .error e => .error e
    | .ok (signature, _) =>
    match ((match opts with
           | some o =>
             match o.verifier with
             | some v =>
               if sigLen = 0 then .error .signatureRequired
               else if v (data.take (headerSize + payloadLen)) signature then .ok ()
               else .error .invalidSignature
             | none => .ok ()
           | none => .ok ()) : Except Err Unit) with
    | .error e => .error e
    | .ok () =>
    let msg : Message :=
      { type := messageType, id := messageID, payload := payload, signature := signature }
    let strict := match opts with | some o => o.strictMode | none => false
    let decoded := match opts with
      | some o =>
        match o.registry with
        | some reg => unmarshalPayloadWithRegistryStrict messageType payload reg strict
        | none => unmarshalPayloadStrict messageType payload strict
      | none => unmarshalPayloadStrict messageType payload strict
    match decoded with
    | .error e => .error e
    | .ok payloadObj => .ok (msg, payloadObj)

/-! ## Protocol engine: streamed sending (message.go) -/

/-- A logical sub-message handed to sendDirect: type, id, payload. -/
structure SubMessage where
  type : Nat
  id : Nat
  payload : Payload
deriving DecidableEq, Repr

/-- sendStreamed from message.go, at the level of the sequence of
sub-messages passed to sendDirect: a type-250 StreamHeader, one type-251
StreamChunk per `chunkSize` slice, and a type-252 end marker with empty
payload.  `totalChunks := uint32((len(payloadBytes)+chunkSize-1)/chunkSize)`
is a uint32 cast, hence the `% 2^32` truncation; the chunk loop runs over
the truncated count. -/
def sendStreamed (cfg : StreamConfig) (messageType : Nat) (messageID : Nat)
    (payloadBytes : List Nat) : List SubMessage :=
  let chunkSize := cfg.chunkSize
  let totalChunks := ((payloadBytes.length + chunkSize - 1) / chunkSize) % 2 ^ 32
  ⟨messageTypeStreamStart, messageID,
    .streamHeader ⟨messageType, payloadBytes.length, totalChunks⟩⟩
  :: ((List.range totalChunks).map fun i =>
        ⟨messageTypeStreamChunk, messageID,
          .streamChunk ⟨i, (payloadBytes.drop (i * chunkSize)).take chunkSize⟩⟩)
  ++ [⟨messageTypeStreamEnd, messageID, .raw []⟩]

/-- SendMessage from message.go, at the sub-message level: serialize the
payload, stream it when streaming is enabled and the length reaches the
threshold, else send directly. -/
def sendMessage (cfg : StreamConfig) (messageType : Nat) (messageID : Nat)
    (payload : Payload) : List SubMessage :=
  let payloadBytes := marshalPayload payload
  if cfg.enabled ∧ cfg.threshold ≤ payloadBytes.length then
    sendStreamed cfg messageType messageID payloadBytes
  else [⟨messageType, messageID, payload⟩]

/-! ## Protocol engine: receiving and stream assembly (message.go) -/

/-- Association-list map with insert-overwrite (Go map semantics). -/
def alInsert {α : Type} (k : Nat) (v : α) : List (Nat × α) → List (Nat × α)
  | [] => [(k, v)]
  | (k', v') :: rest =>
    if k' = k then (k, v) :: rest else (k', v') :: alInsert k v rest

def alLookup {α : Type} (k : Nat) : List (Nat × α) → Option α
  | [] => none
  | (k', v') :: rest => if k' = k then some v' else alLookup k rest

def alErase {α : Type} (k : Nat) : List (Nat × α) → List (Nat × α)
  | [] => []
  | (k', v') :: rest =>
    if k' = k then rest else (k', v') :: alErase k rest

/-- streamAssembler from message.go. -/
structure StreamAssembler where
  header : StreamHeader
  chunks : List (Nat × List Nat)
  received : Nat
deriving DecidableEq, Repr

/-- The Protocol's stream-assembly state (`activeStreams`). -/
structure ProtoState where
  activeStreams : List (Nat × StreamAssembler)
deriving DecidableEq, Repr

/-- startStream from message.go: install a fresh assembler for the id. -/
def startStream (s : ProtoState) (msgID : Nat) (header : StreamHeader) : ProtoState :=
  ⟨alInsert msgID ⟨header, [], 0⟩ s.activeStreams⟩

/-- assembleStream from message.go: concatenate `chunks[0] … chunks[n-1]`
(a missing index contributes the nil slice). -/
def assembleStream (assembler : StreamAssembler) : List Nat :=
  (List.range assembler.header.totalChunks).flatMap
    (fun i => (alLookup i assembler.chunks).getD [])

/-- addChunk from message.go: store the chunk under its index
(insert-overwrite), increment `received`, and report completion when
`received` equals the header's total chunk count. -/
def addChunk (s : ProtoState) (msgID : Nat) (chunk : StreamChunk) :
    Bool × List Nat × ProtoState :=
  match alLookup msgID s.activeStreams with
  | none => (false, [], s)
  | some assembler =>
    let assembler' : StreamAssembler :=
      { assembler with
        chunks := alInsert chunk.chunkIndex chunk.data assembler.chunks,
        received := assembler.received + 1 }
    let s' : ProtoState := ⟨alInsert msgID assembler' s.activeStreams⟩
    if assembler'.received = assembler'.header.totalChunks then
      (true, assembleStream assembler', s')
    else (false, [], s')

/-- ReceiveMessage from message.go, driven on a queue of already framed
messages (each list entry is the byte string handed to UnmarshalMessage
by receiveRaw).  Stream control types are consumed internally; the first
non-stream logical message is returned together with the unconsumed
frames and the updated stream state.  The impossible type assertions of
the Go code (payload of a 250/251 frame decoded by the built-in registry
is always the right struct) map to `invalidMessage`. -/
def receiveMessage (opts : Option MessageOptions) :
    List (List Nat) → ProtoState →
    Except Err (Message × Payload × List (List Nat) × ProtoState)
  | [], _ => .error .eof
  | frame :: rest, s =>
    match unmarshalMessage frame opts with
    | .error e => .error e
    | .ok (msg, payloadObj) =>
      if msg.type = messageTypeStreamStart then
        match payloadObj with
        | .streamHeader h => receiveMessage opts rest (startStream s msg.id h)
        | _ => .error .invalidMessage
      else if msg.type = messageTypeStreamChunk then
        match payloadObj with
        | .streamChunk c =>
          match addChunk s msg.id c with
          | (complete, assembledPayload, s') =>
            if complete then
              match alLookup msg.id s'.activeStreams with
              | some assembler =>
                let originalType := assembler.header.originalType
                let s'' : ProtoState := ⟨alErase msg.id s'.activeStreams⟩
                match unmarshalPayload originalType assembledPayload with
                | .error e => .error e
                | .ok obj =>
                  .ok (⟨originalType, msg.id, assembledPayload, []⟩, obj, rest, s'')
              | none => .error .invalidMessage
            else receiveMessage opts rest s'
        | _ => .error .invalidMessage
      else if msg.type = messageTypeStreamEnd then
        match alLookup msg.id s.activeStreams with
        | some assembler =>
          if assembler.received = assembler.header.totalChunks then
            let originalType := assembler.header.originalType
            let assembledPayload := assembleStream assembler
            let s' : ProtoState := ⟨alErase msg.id s.activeStreams⟩
            match unmarshalPayload originalType assembledPayload with
            | .error e => .error e
            | .ok obj =>
              .ok (⟨originalType, msg.id, assembledPayload, []⟩, obj, rest, s')
          else receiveMessage opts rest s
        | none => receiveMessage opts rest s
      else .ok (msg, payloadObj, rest, s)

/-! ## Reader lemmas -/

theorem readByteL_cons (b : Nat) (l : List Nat) : readByteL (b :: l) = .ok (b, l) := rfl

theorem readN_append (l₁ l₂ : List Nat) : readN l₁.length (l₁ ++ l₂) = .ok (l₁, l₂) := by
  simp [readN, List.take_left, List.drop_left]

theorem readN_append' {n : Nat} (l₁ l₂ : List Nat) (h : l₁.length = n) :
    readN n (l₁ ++ l₂) = .ok (l₁, l₂) := by
  subst h; exact readN_append l₁ l₂

theorem writeUint32BE_length (v : Nat) : (writeUint32BE v).length = 4 := rfl

theorem beVal_writeUint32BE (v : Nat) : beVal (writeUint32BE v) = v % 2 ^ 32 := by
  simp only [writeUint32BE, beVal, List.foldl]
  omega

theorem readU32_append (v : Nat) (r : List Nat) :
    readU32 (writeUint32BE v ++ r) = .ok (v % 2 ^ 32, r) := by
  rw [readU32, readN_append' _ _ (writeUint32BE_length v)]
  simp [beVal_writeUint32BE]

/-! ## Varint lemmas -/

theorem writeVarint_eq (v : Nat) : writeVarint v =
    if v < 128 then [v] else (v % 128 + 128) :: writeVarint (v / 128) := by
  rw [writeVarint]
  split <;> simp_all

/-- Key algebraic step of the varint round trip: with disjoint bit ranges,
the `|=` accumulation is plain addition. -/
theorem lor_shiftLeft_eq_add {acc x n : Nat} (h : acc < 2 ^ n) :
    acc ||| (x <<< n) = acc + x * 2 ^ n := by
  rw [Nat.shiftLeft_eq]
  calc acc ||| x * 2 ^ n = 2 ^ n * x ||| acc := by
        rw [Nat.mul_comm x, Nat.lor_comm]
    _ = 2 ^ n * x + acc := (Nat.mul_add_lt_is_or h x).symm
    _ = acc + x * 2 ^ n := by ring

theorem readVarintAux_writeVarint (v : Nat) :
    ∀ (shift acc : Nat) (rest : List Nat), shift ≤ 63 → acc < 2 ^ shift →
      v < 2 ^ (64 - shift) →
      readVarintAux (writeVarint v ++ rest) shift acc = .ok (acc + v * 2 ^ shift, rest) := by
  induction v using Nat.strong_induction_on with
  | _ v ih =>
    intro shift acc rest hshift hacc hv
    have hpow : (0 : Nat) < 2 ^ shift := Nat.pos_pow_of_pos _ (by omega)
    rw [writeVarint_eq]
    by_cases h : v < 128
    · simp only [if_pos h, List.cons_append, readVarintAux]
      rw [if_neg (by omega)]
      have hv128 : v % 128 = v := Nat.mod_eq_of_lt h
      have hsmall : v <<< shift < 2 ^ 64 := by
        rw [Nat.shiftLeft_eq]
        calc v * 2 ^ shift < 2 ^ (64 - shift) * 2 ^ shift := (Nat.mul_lt_mul_right hpow).mpr hv
          _ = 2 ^ 64 := by rw [← Nat.pow_add]; congr 1; omega
      simp only [hv128, if_pos h, Nat.mod_eq_of_lt hsmall, List.nil_append]
      rw [lor_shiftLeft_eq_add hacc]
    · simp only [if_neg h, List.cons_append, readVarintAux]
      rw [if_neg (by omega)]
      have hb : ¬ (v % 128 + 128 < 128) := by omega
      rw [if_neg hb]
      have hmod : (v % 128 + 128) % 128 = v % 128 := by omega
      have hshift7 : shift + 7 ≤ 63 := by
        by_contra hc
        have h128 : 128 ≤ v := by omega
        have hle : 2 ^ (64 - shift) ≤ 2 ^ 7 := Nat.pow_le_pow_right (by omega) (by omega)
        norm_num at hle
        omega
      have hle127 : v % 128 * 2 ^ shift ≤ 127 * 2 ^ shift :=
        Nat.mul_le_mul_right _ (by omega)
      have hsmall : (v % 128) <<< shift < 2 ^ 64 := by
        rw [Nat.shiftLeft_eq]
        have h7s : (128 : Nat) * 2 ^ shift = 2 ^ (7 + shift) := by
          rw [Nat.pow_add]
        have hend : 2 ^ (7 + shift) ≤ 2 ^ 64 := Nat.pow_le_pow_right (by omega) (by omega)
        omega
      rw [hmod, Nat.mod_eq_of_lt hsmall, lor_shiftLeft_eq_add hacc]
      have hacc' : acc + v % 128 * 2 ^ shift < 2 ^ (shift + 7) := by
        have hp7 : 2 ^ (shift + 7) = 2 ^ shift * 128 := by
          rw [Nat.pow_add]
        omega
      have hv' : v / 128 < 2 ^ (64 - (shift + 7)) := by
        apply Nat.div_lt_of_lt_mul
        calc v < 2 ^ (64 - shift) := hv
          _ = 128 * 2 ^ (64 - (shift + 7)) := by
            rw [show (64 - shift) = 7 + (64 - (shift + 7)) from by omega, Nat.pow_add]
      have hrec := ih (v / 128) (Nat.div_lt_self (by omega) (by omega))
        (shift + 7) (acc + v % 128 * 2 ^ shift) rest hshift7 hacc' hv'
      rw [hrec]
      have harith : acc + v % 128 * 2 ^ shift + v / 128 * 2 ^ (shift + 7)
          = acc + v * 2 ^ shift := by
        have hp7 : (2 : Nat) ^ (shift + 7) = 2 ^ shift * 128 := by
          rw [Nat.pow_add]
        have hvsplit : v % 128 + v / 128 * 128 = v := by omega
        rw [hp7]
        conv_rhs => rw [← hvsplit]
        ring
      rw [harith]

/-- Round trip of the varint codec, with arbitrary trailing bytes. -/
theorem readVarint_writeVarint (v : Nat) (rest : List Nat) (h : v < 2 ^ 64) :
    readVarint (writeVarint v ++ rest) = .ok (v, rest) := by
  rw [readVarint, readVarintAux_writeVarint v 0 0 rest (by omega) (by omega) (by simpa)]
  simp

/-- Ten and more continuation bytes drive the shift counter past 63 and
fail with the varint-overflow error. -/
theorem readVarintAux_overflow (bs : List Nat) :
    ∀ (shift acc : Nat) (x : Nat) (rest : List Nat),
      (∀ b ∈ bs, 128 ≤ b) → 64 ≤ shift + 7 * bs.length →
      readVarintAux (bs ++ x :: rest) shift acc = .error .varintOverflow := by
  induction bs with
  | nil =>
    intro shift acc x rest _ hs
    simp only [List.nil_append, readVarintAux]
    rw [if_pos (by simpa using hs)]
  | cons b bs ih =>
    intro shift acc x rest hcont hs
    simp only [List.cons_append, readVarintAux]
    by_cases h64 : 64 ≤ shift
    · rw [if_pos h64]
    · rw [if_neg h64, if_neg (by
        have := hcont b (List.mem_cons_self b bs); omega)]
      exact ih (shift + 7) _ x rest (fun b hb => hcont b (List.mem_cons_of_mem _ hb))
        (by simp only [List.length_cons] at hs; omega)

/-- Length bound: a value below `2^(7(k+1))` needs at most `k+1` varint
bytes. -/
theorem writeVarint_length_le (k : Nat) : ∀ v : Nat, v < 2 ^ (7 * (k + 1)) →
    (writeVarint v).length ≤ k + 1 := by
  induction k with
  | zero =>
    intro v hv
    have h : v < 128 := by norm_num at hv; omega
    rw [writeVarint_eq, if_pos h]
    simp
  | succ k ih =>
    intro v hv
    rw [writeVarint_eq]
    by_cases h : v < 128
    · rw [if_pos h]; simp
    · rw [if_neg h]
      simp only [List.length_cons]
      have hdiv : v / 128 < 2 ^ (7 * (k + 1)) := by
        apply Nat.div_lt_of_lt_mul
        calc v < 2 ^ (7 * (k + 2)) := hv
          _ = 128 * 2 ^ (7 * (k + 1)) := by
            rw [show 7 * (k + 2) = 7 + 7 * (k + 1) from by ring, Nat.pow_add]
      have := ih (v / 128) hdiv
      omega

/-! ## Parsing lemmas for the message codec -/

theorem readN_exact (l : List Nat) : readN l.length l = .ok (l, []) := by
  simp [readN]

theorem readU32_exact (v : Nat) : readU32 (writeUint32BE v) = .ok (v % 2 ^ 32, []) := by
  have h := readU32_append v []
  simpa using h

/-- Structured wire for one marshalled message. -/
theorem marshalMessage_eq (t id : Nat) (p : Payload)
    (hp : (marshalPayload p).length ≤ maxPayloadSize) :
    marshalMessage t id p none =
      .ok (t :: (writeUint32BE id ++ writeUint32BE (marshalPayload p).length ++
        marshalPayload p ++ writeUint32BE 0)) := by
  rw [marshalMessage]
  simp only [if_neg (Nat.not_lt.mpr hp)]
  simp [List.append_assoc]

/-- MarshalMessage with a signer appends the signature of header+payload. -/
theorem marshalMessage_signed_eq (t id : Nat) (p : Payload)
    (s : List Nat → List Nat) (verifier : Option (List Nat → List Nat → Bool))
    (registry : Option Registry) (cfg : Option StreamConfig) (strict : Bool)
    (hp : (marshalPayload p).length ≤ maxPayloadSize) :
    marshalMessage t id p (some ⟨some s, verifier, registry, cfg, strict⟩) =
      .ok ((t :: (writeUint32BE id ++ writeUint32BE (marshalPayload p).length ++
            marshalPayload p)) ++
        writeUint32BE (s (t :: (writeUint32BE id ++
            writeUint32BE (marshalPayload p).length ++ marshalPayload p))).length ++
        s (t :: (writeUint32BE id ++ writeUint32BE (marshalPayload p).length ++
            marshalPayload p))) := by
  rw [marshalMessage]
  simp only [if_neg (Nat.not_lt.mpr hp)]

/-- Parsing an unsigned structured wire with `opts = none`: the header
fields come back and the payload is decoded non-strictly against the
global registry. -/
theorem unmarshalMessage_none (t id : Nat) (payload : List Nat)
    (hp : payload.length ≤ maxPayloadSize) (hid : id < 2 ^ 32) :
    unmarshalMessage
      (t :: (writeUint32BE id ++ (writeUint32BE payload.length ++
        (payload ++ writeUint32BE 0)))) none
    = match unmarshalPayloadStrict t payload false with
      | .error e => .error e
      | .ok obj => .ok (⟨t, id, payload, []⟩, obj) := by
  have hplt : payload.length < 2 ^ 32 := lt_of_le_of_lt hp (by norm_num [maxPayloadSize])
  have hguard : ¬ ((t :: (writeUint32BE id ++ (writeUint32BE payload.length ++
      (payload ++ writeUint32BE 0)))).length < headerSize + signatureLengthSize) := by
    simp [headerSize, messageTypeSize, messageIDSize, payloadLengthSize,
      signatureLengthSize, writeUint32BE]
  rw [unmarshalMessage, if_neg hguard]
  rw [readByteL_cons]; simp only []
  rw [readU32_append]; simp only []
  rw [Nat.mod_eq_of_lt hid]
  rw [readU32_append]; simp only []
  rw [Nat.mod_eq_of_lt hplt]
  rw [if_neg (Nat.not_lt.mpr hp)]
  rw [readN_append]; simp only []
  rw [readU32_exact]; simp only []
  norm_num

/-- Same parsing with options that carry neither signer, verifier nor
registry (only strict mode may be set). -/
theorem unmarshalMessage_strictOpts (t id : Nat) (payload : List Nat)
    (cfg : Option StreamConfig) (strict : Bool)
    (hp : payload.length ≤ maxPayloadSize) (hid : id < 2 ^ 32) :
    unmarshalMessage
      (t :: (writeUint32BE id ++ (writeUint32BE payload.length ++
        (payload ++ writeUint32BE 0)))) (some ⟨none, none, none, cfg, strict⟩)
    = match unmarshalPayloadStrict t payload strict with
      | .error e => .error e
      | .ok obj => .ok (⟨t, id, payload, []⟩, obj) := by
  have hplt : payload.length < 2 ^ 32 := lt_of_le_of_lt hp (by norm_num [maxPayloadSize])
  have hguard : ¬ ((t :: (writeUint32BE id ++ (writeUint32BE payload.length ++
      (payload ++ writeUint32BE 0)))).length < headerSize + signatureLengthSize) := by
    simp [headerSize, messageTypeSize, messageIDSize, payloadLengthSize,
      signatureLengthSize, writeUint32BE]
  rw [unmarshalMessage, if_neg hguard]
  rw [readByteL_cons]; simp only []
  rw [readU32_append]; simp only []
  rw [Nat.mod_eq_of_lt hid]
  rw [readU32_append]; simp only []
  rw [Nat.mod_eq_of_lt hplt]
  rw [if_neg (Nat.not_lt.mpr hp)]
  rw [readN_append]; simp only []
  rw [readU32_exact]; simp only []
  norm_num

/-- Parsing a wire whose sig-length field is zero while a verifier is
configured fails with the signature-required error. -/
theorem unmarshalMessage_verifier_sigRequired (t id : Nat) (payload : List Nat)
    (v : List Nat → List Nat → Bool) (signer : Option (List Nat → List Nat))
    (registry : Option Registry) (cfg : Option StreamConfig) (strict : Bool)
    (hp : payload.length ≤ maxPayloadSize) (hid : id < 2 ^ 32) :
    unmarshalMessage
      (t :: (writeUint32BE id ++ (writeUint32BE payload.length ++
        (payload ++ writeUint32BE 0)))) (some ⟨signer, some v, registry, cfg, strict⟩)
    = .error .signatureRequired := by
  have hplt : payload.length < 2 ^ 32 := lt_of_le_of_lt hp (by norm_num [maxPayloadSize])
  have hguard : ¬ ((t :: (writeUint32BE id ++ (writeUint32BE payload.length ++
      (payload ++ writeUint32BE 0)))).length < headerSize + signatureLengthSize) := by
    simp [headerSize, messageTypeSize, messageIDSize, payloadLengthSize,
      signatureLengthSize, writeUint32BE]
  rw [unmarshalMessage, if_neg hguard]
  rw [readByteL_cons]; simp only []
  rw [readU32_append]; simp only []
  rw [Nat.mod_eq_of_lt hid]
  rw [readU32_append]; simp only []
  rw [Nat.mod_eq_of_lt hplt]
  rw [if_neg (Nat.not_lt.mpr hp)]
  rw [readN_append]; simp only []
  rw [readU32_exact]; simp only []
  norm_num

/-- Parsing a signed structured wire with a verifier: the verifier is
invoked on exactly the header + payload prefix, and decides between the
invalid-signature error and normal decoding. -/
theorem unmarshalMessage_verifier (t id : Nat) (payload sig : List Nat)
    (v : List Nat → List Nat → Bool) (signer : Option (List Nat → List Nat))
    (cfg : Option StreamConfig)
    (hp : payload.length ≤ maxPayloadSize) (hid : id < 2 ^ 32)
    (hs0 : 0 < sig.length) (hs : sig.length < 2 ^ 32) :
    unmarshalMessage
      (t :: (writeUint32BE id ++ (writeUint32BE payload.length ++
        (payload ++ (writeUint32BE sig.length ++ sig)))))
      (some ⟨signer, some v, none, cfg, false⟩)
    = if v (t :: (writeUint32BE id ++ (writeUint32BE payload.length ++ payload))) sig
      then match unmarshalPayloadStrict t payload false with
        | .error e => .error e
        | .ok obj => .ok (⟨t, id, payload, sig⟩, obj)
      else .error .invalidSignature := by
  have hplt : payload.length < 2 ^ 32 := lt_of_le_of_lt hp (by norm_num [maxPayloadSize])
  have hguard : ¬ ((t :: (writeUint32BE id ++ (writeUint32BE payload.length ++
      (payload ++ (writeUint32BE sig.length ++ sig))))).length
        < headerSize + signatureLengthSize) := by
    simp [headerSize, messageTypeSize, messageIDSize, payloadLengthSize,
      signatureLengthSize, writeUint32BE] <;> omega
  have htake : (t :: (writeUint32BE id ++ (writeUint32BE payload.length ++
      (payload ++ (writeUint32BE sig.length ++ sig))))).take
        (headerSize + payload.length)
      = t :: (writeUint32BE id ++ (writeUint32BE payload.length ++ payload)) := by
    have hlen : (writeUint32BE id ++ (writeUint32BE payload.length ++ payload)).length
        = 8 + payload.length := by
      simp [writeUint32BE] <;> omega
    rw [show (t :: (writeUint32BE id ++ (writeUint32BE payload.length ++
          (payload ++ (writeUint32BE sig.length ++ sig)))))
        = (t :: (writeUint32BE id ++ (writeUint32BE payload.length ++ payload))) ++
          (writeUint32BE sig.length ++ sig) from by simp]
    rw [List.take_append_of_le_length (by
      simp only [List.length_cons, hlen, headerSize, messageTypeSize,
        messageIDSize, payloadLengthSize]
      omega)]
    rw [List.take_of_length_le (by
      simp only [List.length_cons, hlen, headerSize, messageTypeSize,
        messageIDSize, payloadLengthSize]
      omega)]
  rw [unmarshalMessage, if_neg hguard]
  rw [readByteL_cons]; simp only []
  rw [readU32_append]; simp only []
  rw [Nat.mod_eq_of_lt hid]
  rw [readU32_append]; simp only []
  rw [Nat.mod_eq_of_lt hplt]
  rw [if_neg (Nat.not_lt.mpr hp)]
  rw [readN_append]; simp only []
  rw [readU32_append]; simp only []
  rw [Nat.mod_eq_of_lt hs]
  rw [if_pos hs0, readN_exact]; simp only []
  rw [if_neg (by omega : ¬ sig.length = 0)]
  rw [htake]
  by_cases hv : v (t :: (writeUint32BE id ++ (writeUint32BE payload.length ++ payload))) sig
  · rw [if_pos hv, if_pos hv]
  · rw [if_neg hv, if_neg hv]

/-! ## Round trips of the built-in payload codecs -/

theorem streamHeaderUnmarshal_marshal (h : StreamHeader)
    (hs : h.totalSize < 2 ^ 64) (hc : h.totalChunks < 2 ^ 32) :
    streamHeaderUnmarshal (streamHeaderMarshal h) = .ok (.streamHeader h) := by
  rw [streamHeaderMarshal, streamHeaderUnmarshal, readByteL_cons]
  simp only []
  rw [show readUint64V (writeVarint h.totalSize ++ writeVarint h.totalChunks)
      = .ok (h.totalSize, writeVarint h.totalChunks) from
    readVarint_writeVarint _ _ hs]
  simp only []
  rw [readUint32V,
    show writeVarint h.totalChunks = writeVarint h.totalChunks ++ [] from
      (List.append_nil _).symm,
    readVarint_writeVarint _ _ (by omega)]
  simp only []
  rw [if_neg (by omega)]

theorem streamChunkUnmarshal_marshal (c : StreamChunk)
    (hi : c.chunkIndex < 2 ^ 32) (hd : c.data.length ≤ 2 ^ 30) :
    streamChunkUnmarshal (streamChunkMarshal c) = .ok (.streamChunk c) := by
  rw [streamChunkMarshal, streamChunkUnmarshal, readUint32V,
    readVarint_writeVarint _ _ (by omega)]
  simp only []
  rw [if_neg (by omega)]
  simp only []
  rw [readBytesV, readVarint_writeVarint _ _ (by
    calc c.data.length ≤ 2 ^ 30 := hd
      _ < 2 ^ 64 := by norm_num)]
  simp only []
  rw [if_neg (by omega), readN_exact]

theorem streamHeaderMarshal_length_le (h : StreamHeader)
    (hs : h.totalSize < 2 ^ 64) (hc : h.totalChunks < 2 ^ 32) :
    (streamHeaderMarshal h).length ≤ maxPayloadSize := by
  have h1 : (writeVarint h.totalSize).length ≤ 10 :=
    writeVarint_length_le 9 _ (lt_of_lt_of_le hs (by norm_num))
  have h2 : (writeVarint h.totalChunks).length ≤ 5 :=
    writeVarint_length_le 4 _ (lt_of_lt_of_le hc (by norm_num))
  simp only [streamHeaderMarshal, List.length_cons, List.length_append, maxPayloadSize]
  omega

theorem streamChunkMarshal_data_le (c : StreamChunk) :
    c.data.length ≤ (streamChunkMarshal c).length := by
  simp only [streamChunkMarshal, List.length_append]
  omega

/-! ## Registry and strict-mode lemmas -/

theorem regGet_global_250 : regGet globalRegistry 250 = some .streamHeaderF := rfl

theorem regGet_global_251 : regGet globalRegistry 251 = some .streamChunkF := rfl

theorem regGet_global_none (t : Nat) (h1 : t ≠ 250) (h2 : t ≠ 251) :
    regGet globalRegistry t = none := by
  simp [regGet, globalRegistry, newPayloadRegistry,
    messageTypeStreamStart, messageTypeStreamChunk, h1, h2]

theorem unmarshalPayloadStrict_unregistered (t : Nat) (p : List Nat)
    (h1 : t ≠ 250) (h2 : t ≠ 251) (strict : Bool) :
    unmarshalPayloadStrict t p strict
      = if strict then .error .unknownMessageType else .ok (.raw p) := by
  rw [unmarshalPayloadStrict, unmarshalPayloadWithRegistryStrict,
    regGet_global_none t h1 h2]

/-! ## C6, C7, C8, C9 -/

/-- C6.  Strict mode coverage: on a type with no registered factory,
non-strict decoding returns the raw input bytes and strict decoding
fails with the unknown-message-type error; on a registered type, strict
and non-strict decoding coincide. -/
theorem claim_C6 :
    ∀ (reg : Registry) (t : Nat) (p : List Nat),
      (regGet reg t = none →
        unmarshalPayloadWithRegistryStrict t p reg false = .ok (.raw p) ∧
        unmarshalPayloadWithRegistryStrict t p reg true = .error .unknownMessageType) ∧
      (∀ f : Factory, regGet reg t = some f →
        unmarshalPayloadWithRegistryStrict t p reg true
          = unmarshalPayloadWithRegistryStrict t p reg false) := by
  intro reg t p
  constructor
  · intro hnone
    rw [unmarshalPayloadWithRegistryStrict, hnone,
      unmarshalPayloadWithRegistryStrict, hnone]
    simp
  · intro f hf
    rw [unmarshalPayloadWithRegistryStrict, hf, unmarshalPayloadWithRegistryStrict, hf]

theorem claim_C6_witness :
    regGet globalRegistry 7 = none ∧
    (unmarshalPayloadWithRegistryStrict 7 [222, 173] globalRegistry false
        = .ok (.raw [222, 173]) ∧
      unmarshalPayloadWithRegistryStrict 7 [222, 173] globalRegistry true
        = .error .unknownMessageType) :=
  ⟨by decide, (claim_C6 globalRegistry 7 [222, 173]).1 (by decide)⟩

/-- C7.  Reserved-type protection: registering or unregistering any type
≥ 250 leaves the handler map unchanged, and a fresh registry has the
built-in StreamHeader/StreamChunk factories installed at 250 and 251. -/
theorem claim_C7 :
    (∀ (r : Registry) (t : Nat) (f : Factory), 250 ≤ t →
      register r t f = r ∧ unregister r t = r) ∧
    regHas newPayloadRegistry 250 = true ∧
    regHas newPayloadRegistry 251 = true ∧
    regGet newPayloadRegistry 250 = some .streamHeaderF ∧
    regGet newPayloadRegistry 251 = some .streamChunkF := by
  refine ⟨fun r t f ht => ⟨?_, ?_⟩, rfl, rfl, rfl, rfl⟩
  · simp [register, isReservedType, ht]
  · simp [unregister, isReservedType, ht]

theorem claim_C7_witness :
    ((250 : Nat) ≤ 250 → True) ∧
    (register newPayloadRegistry 250 .streamChunkF = newPayloadRegistry ∧
      unregister newPayloadRegistry 250 = newPayloadRegistry) ∧
    regHas newPayloadRegistry 250 = true :=
  ⟨fun _ => trivial,
    claim_C7.1 newPayloadRegistry 250 .streamChunkF (by decide),
    claim_C7.2.1⟩

/-- C8.  MarshalMessage fails with the payload-too-large error exactly
when the serialized payload exceeds 100 MiB (so exactly 100 MiB is
accepted), and UnmarshalMessage rejects a declared payload length above
100 MiB before reading any payload bytes (the wire may carry far fewer
bytes than declared). -/
theorem claim_C8 :
    (∀ (t id : Nat) (p : Payload) (opts : Option MessageOptions),
      marshalMessage t id p opts = .error .payloadTooLarge ↔
        maxPayloadSize < (marshalPayload p).length) ∧
    (∀ (t id plen : Nat) (tail : List Nat) (opts : Option MessageOptions),
      maxPayloadSize < plen → plen < 2 ^ 32 → 4 ≤ tail.length →
      unmarshalMessage (t :: (writeUint32BE id ++ (writeUint32BE plen ++ tail))) opts
        = .error .payloadTooLarge) := by
  constructor
  · intro t id p opts
    rw [marshalMessage]
    by_cases h : maxPayloadSize < (marshalPayload p).length
    · simp [h]
    · simp only [if_neg h]
      constructor
      · intro hcontr
        match opts with
        | none => simp at hcontr
        | some o =>
          match ho : o.signer with
          | none => simp [ho] at hcontr
          | some s => simp [ho] at hcontr
      · intro hcontr; omega
  · intro t id plen tail opts hbig hlt htail
    have hguard : ¬ ((t :: (writeUint32BE id ++ (writeUint32BE plen ++ tail))).length
        < headerSize + signatureLengthSize) := by
      simp [headerSize, messageTypeSize, messageIDSize, payloadLengthSize,
        signatureLengthSize, writeUint32BE]
      omega
    rw [unmarshalMessage.eq_def, if_neg hguard]
    rw [readByteL_cons]; simp only []
    rw [readU32_append]; simp only []
    rw [readU32_append]; simp only []
    rw [Nat.mod_eq_of_lt hlt]
    rw [if_pos hbig]

theorem claim_C8_witness :
    maxPayloadSize < 104857601 ∧ 104857601 < 2 ^ 32 ∧
      4 ≤ ([0, 0, 0, 0] : List Nat).length ∧
      unmarshalMessage (1 :: (writeUint32BE 0 ++ (writeUint32BE 104857601 ++ [0, 0, 0, 0])))
        none = .error .payloadTooLarge :=
  ⟨by decide, by decide, by decide,
    claim_C8.2 1 0 104857601 [0, 0, 0, 0] none (by decide) (by decide) (by decide)⟩

/-- C9.  The varint codec round-trips every value representable in 64
bits, and an encoding whose continuation bits run past ten bytes (shift
counter beyond 63) fails with the varint-overflow error. -/
theorem claim_C9 :
    (∀ v : Nat, v < 2 ^ 64 → readVarint (writeVarint v) = .ok (v, [])) ∧
    (∀ (bs : List Nat) (x : Nat) (rest : List Nat), bs.length = 10 →
      (∀ b ∈ bs, 128 ≤ b) →
      readVarint (bs ++ x :: rest) = .error .varintOverflow) := by
  constructor
  · intro v hv
    have := readVarint_writeVarint v [] hv
    simpa using this
  · intro bs x rest hlen hcont
    rw [readVarint]
    exact readVarintAux_overflow bs 0 0 x rest hcont (by omega)

theorem claim_C9_witness :
    ((300 : Nat) < 2 ^ 64 ∧ readVarint (writeVarint 300) = .ok (300, [])) ∧
    ((List.replicate 10 128).length = 10 ∧
      readVarint (List.replicate 10 128 ++ 0 :: []) = .error .varintOverflow) :=
  ⟨⟨by decide, claim_C9.1 300 (by decide)⟩,
    ⟨by decide, claim_C9.2 (List.replicate 10 128) 0 [] (by decide)
      (by decide)⟩⟩

/-! ## C1: wire encoding of the header fields -/

/-- C1 counterexample.  With id = 7, payload length 3 and sig length 0
(all below 128), the wire produced by MarshalMessage is NOT the varint
framing the claim describes (under which each of these fields would be a
single byte): the actual frame is 16 bytes, not 7. -/
theorem claim_C1_counterexample :
    marshalMessage 5 7 (.raw [1, 2, 3]) none
      = .ok [5, 0, 0, 0, 7, 0, 0, 0, 3, 1, 2, 3, 0, 0, 0, 0] ∧
    ([5, 0, 0, 0, 7, 0, 0, 0, 3, 1, 2, 3, 0, 0, 0, 0] : List Nat)
      ≠ 5 :: (writeVarint 7 ++ writeVarint 3 ++ [1, 2, 3] ++ writeVarint 0) := by
  constructor
  · decide
  · simp [writeVarint_eq]

/-- C1 (amended).  In the framed message produced by MarshalMessage, the
id, payload_len and sig_len fields are fixed-width 4-byte big-endian
values (each occupies exactly 4 bytes on the wire, whatever its value),
not varints. -/
theorem claim_C1 :
    (∀ (t id : Nat) (p : Payload), (marshalPayload p).length ≤ maxPayloadSize →
      marshalMessage t id p none =
        .ok (t :: (writeUint32BE id ++ writeUint32BE (marshalPayload p).length ++
          marshalPayload p ++ writeUint32BE 0))) ∧
    (∀ v : Nat, (writeUint32BE v).length = 4) :=
  ⟨fun t id p hp => marshalMessage_eq t id p hp, fun v => writeUint32BE_length v⟩

theorem claim_C1_witness :
    (marshalPayload (.raw [1, 2, 3])).length ≤ maxPayloadSize ∧
    marshalMessage 5 7 (.raw [1, 2, 3]) none =
      .ok (5 :: (writeUint32BE 7 ++ writeUint32BE (marshalPayload (.raw [1, 2, 3])).length ++
        marshalPayload (.raw [1, 2, 3]) ++ writeUint32BE 0)) :=
  ⟨by decide, claim_C1.1 5 7 (.raw [1, 2, 3]) (by decide)⟩

/-! ## C2: marshal/unmarshal round trip -/

/-- C2 counterexample.  The claim quantifies over every message type and
every raw byte-slice payload, but for the reserved type 250 with an
empty raw payload the round trip does not succeed: the global registry
decodes type 250 through the StreamHeader factory, which fails on the
empty payload. -/
theorem claim_C2_counterexample :
    (marshalMessage 250 1 (.raw []) none).bind (fun w => unmarshalMessage w none)
      = .error .eof := by
  decide

/-- C2 (amended).  Round trip for `opts = nil` on both sides: for every
non-reserved-decoder type (t ∉ {250, 251}) and raw payload of at most
100 MiB, unmarshal ∘ marshal succeeds and returns the same type, id and
payload bytes, with the payload decoded back to the same raw bytes; for
the two registered payload types (StreamHeader on 250, StreamChunk on
251, within their field ranges and 100 MiB serialized size) the decoded
payload is structurally equal to the original. -/
theorem claim_C2 :
    (∀ (t id : Nat) (p : List Nat), t ≠ 250 → t ≠ 251 → id < 2 ^ 32 →
      p.length ≤ maxPayloadSize →
      (marshalMessage t id (.raw p) none).bind (fun w => unmarshalMessage w none)
        = .ok (⟨t, id, p, []⟩, .raw p)) ∧
    (∀ (id : Nat) (h : StreamHeader), id < 2 ^ 32 → h.totalSize < 2 ^ 64 →
      h.totalChunks < 2 ^ 32 →
      (marshalMessage 250 id (.streamHeader h) none).bind (fun w => unmarshalMessage w none)
        = .ok (⟨250, id, streamHeaderMarshal h, []⟩, .streamHeader h)) ∧
    (∀ (id : Nat) (c : StreamChunk), id < 2 ^ 32 → c.chunkIndex < 2 ^ 32 →
      (streamChunkMarshal c).length ≤ maxPayloadSize →
      (marshalMessage 251 id (.streamChunk c) none).bind (fun w => unmarshalMessage w none)
        = .ok (⟨251, id, streamChunkMarshal c, []⟩, .streamChunk c)) := by
  refine ⟨?_, ?_, ?_⟩
  · intro t id p h250 h251 hid hp
    have hp' : (marshalPayload (.raw p)).length ≤ maxPayloadSize := hp
    rw [marshalMessage_eq t id (.raw p) hp']
    simp only [Except.bind, marshalPayload, List.append_assoc]
    rw [unmarshalMessage_none t id p hp hid]
    rw [unmarshalPayloadStrict_unregistered t p h250 h251 false]
    simp
  · intro id h hid hs hc
    have hp : (marshalPayload (.streamHeader h)).length ≤ maxPayloadSize :=
      streamHeaderMarshal_length_le h hs hc
    rw [marshalMessage_eq 250 id (.streamHeader h) hp]
    simp only [Except.bind, marshalPayload, List.append_assoc]
    rw [unmarshalMessage_none 250 id (streamHeaderMarshal h) hp hid]
    rw [unmarshalPayloadStrict, unmarshalPayloadWithRegistryStrict, regGet_global_250]
    simp only [runFactory]
    rw [streamHeaderUnmarshal_marshal h hs hc]
  · intro id c hid hci hp'
    have hp : (marshalPayload (.streamChunk c)).length ≤ maxPayloadSize := hp'
    have hd : c.data.length ≤ 2 ^ 30 :=
      le_trans (streamChunkMarshal_data_le c)
        (le_trans hp' (by norm_num [maxPayloadSize]))
    rw [marshalMessage_eq 251 id (.streamChunk c) hp]
    simp only [Except.bind, marshalPayload, List.append_assoc]
    rw [unmarshalMessage_none 251 id (streamChunkMarshal c) hp hid]
    rw [unmarshalPayloadStrict, unmarshalPayloadWithRegistryStrict, regGet_global_251]
    simp only [runFactory]
    rw [streamChunkUnmarshal_marshal c hci hd]

theorem claim_C2_witness :
    ((5 : Nat) ≠ 250 ∧ (42 : Nat) < 2 ^ 32 ∧
      (marshalMessage 5 42 (.raw [1, 2, 3]) none).bind (fun w => unmarshalMessage w none)
        = .ok (⟨5, 42, [1, 2, 3], []⟩, .raw [1, 2, 3])) ∧
    ((marshalMessage 250 9 (.streamHeader ⟨7, 300, 2⟩) none).bind
        (fun w => unmarshalMessage w none)
      = .ok (⟨250, 9, streamHeaderMarshal ⟨7, 300, 2⟩, []⟩, .streamHeader ⟨7, 300, 2⟩)) ∧
    ((marshalMessage 251 9 (.streamChunk ⟨1, [8, 9]⟩) none).bind
        (fun w => unmarshalMessage w none)
      = .ok (⟨251, 9, streamChunkMarshal ⟨1, [8, 9]⟩, []⟩, .streamChunk ⟨1, [8, 9]⟩)) :=
  ⟨⟨by decide, by decide,
      claim_C2.1 5 42 [1, 2, 3] (by decide) (by decide) (by decide) (by decide)⟩,
    claim_C2.2.1 9 ⟨7, 300, 2⟩ (by decide) (by decide) (by decide),
    claim_C2.2.2 9 ⟨1, [8, 9]⟩ (by decide) (by decide)
      (by simp [streamChunkMarshal, writeVarint_eq, maxPayloadSize])⟩

/-! ## C5: signature requirement and coverage -/

/-- C5.  With a verifier configured: a wire whose sig_len field is zero
fails with the signature-required error; with a nonzero sig_len, the
verifier is invoked on exactly the bytes of type, id, payload_len and
payload (excluding the sig_len field and the signature), and its
rejection surfaces as the invalid-signature error. -/
theorem claim_C5 :
    (∀ (t id : Nat) (payload : List Nat) (v : List Nat → List Nat → Bool)
      (signer : Option (List Nat → List Nat)) (registry : Option Registry)
      (cfg : Option StreamConfig) (strict : Bool),
      payload.length ≤ maxPayloadSize → id < 2 ^ 32 →
      unmarshalMessage
        (t :: (writeUint32BE id ++ (writeUint32BE payload.length ++
          (payload ++ writeUint32BE 0)))) (some ⟨signer, some v, registry, cfg, strict⟩)
        = .error .signatureRequired) ∧
    (∀ (t id : Nat) (payload sig : List Nat) (v : List Nat → List Nat → Bool)
      (signer : Option (List Nat → List Nat)) (cfg : Option StreamConfig),
      payload.length ≤ maxPayloadSize → id < 2 ^ 32 →
      0 < sig.length → sig.length < 2 ^ 32 →
      unmarshalMessage
        (t :: (writeUint32BE id ++ (writeUint32BE payload.length ++
          (payload ++ (writeUint32BE sig.length ++ sig)))))
        (some ⟨signer, some v, none, cfg, false⟩)
        = if v (t :: (writeUint32BE id ++ (writeUint32BE payload.length ++ payload))) sig
          then match unmarshalPayloadStrict t payload false with
            | .error e => .error e
            | .ok obj => .ok (⟨t, id, payload, sig⟩, obj)
          else .error .invalidSignature) :=
  ⟨fun t id payload v signer registry cfg strict hp hid =>
      unmarshalMessage_verifier_sigRequired t id payload v signer registry cfg strict hp hid,
    fun t id payload sig v signer cfg hp hid hs0 hs =>
      unmarshalMessage_verifier t id payload sig v signer cfg hp hid hs0 hs⟩

theorem claim_C5_witness :
    (([1, 2] : List Nat).length ≤ maxPayloadSize ∧ (7 : Nat) < 2 ^ 32 ∧
      unmarshalMessage
        (3 :: (writeUint32BE 7 ++ (writeUint32BE ([1, 2] : List Nat).length ++
          ([1, 2] ++ writeUint32BE 0))))
        (some ⟨none, some (fun _ _ => false), none, none, false⟩)
        = .error .signatureRequired) ∧
    ((0 : Nat) < ([9] : List Nat).length ∧
      unmarshalMessage
        (3 :: (writeUint32BE 7 ++ (writeUint32BE ([1, 2] : List Nat).length ++
          ([1, 2] ++ (writeUint32BE ([9] : List Nat).length ++ [9])))))
        (some ⟨none, some (fun _ _ => false), none, none, false⟩)
        = if (fun (_ _ : List Nat) => false)
              (3 :: (writeUint32BE 7 ++ (writeUint32BE ([1, 2] : List Nat).length ++ [1, 2]))) [9]
          then match unmarshalPayloadStrict 3 [1, 2] false with
            | .error e => .error e
            | .ok obj => .ok (⟨3, 7, [1, 2], [9]⟩, obj)
          else .error .invalidSignature) :=
  ⟨⟨by decide, by decide,
      claim_C5.1 3 7 [1, 2] (fun _ _ => false) none none none false (by decide) (by decide)⟩,
    ⟨by decide,
      claim_C5.2 3 7 [1, 2] [9] (fun _ _ => false) none none (by decide) (by decide)
        (by decide) (by decide)⟩⟩

/-! ## C3: streamed send sequence -/

/-- Concatenating the `chunkSize`-slices of a payload in index order
recovers the payload. -/
theorem chunks_flatMap_eq (c : Nat) (hc : 0 < c) :
    ∀ (k : Nat) (p : List Nat), (p.length + c - 1) / c = k →
      ((List.range k).flatMap fun i => (p.drop (i * c)).take c) = p := by
  intro k
  induction k with
  | zero =>
    intro p hk
    have hp0 : p.length = 0 := by
      by_contra h0
      have h1 : c ≤ p.length + c - 1 := by omega
      have := (Nat.one_le_div_iff hc).mpr h1
      omega
    have hnil : p = [] := List.eq_nil_of_length_eq_zero hp0
    subst hnil
    simp
  | succ k ih =>
    intro p hk
    have hp1 : 1 ≤ p.length := by
      by_contra h0
      have hp0 : p.length = 0 := by omega
      rw [hp0, Nat.div_eq_of_lt (by omega)] at hk
      omega
    have hk' : ((p.drop c).length + c - 1) / c = k := by
      rw [List.length_drop]
      rcases le_or_lt p.length c with hle | hlt
      · have h1 : (p.length + c - 1) / c = 1 :=
          Nat.div_eq_of_lt_le (by omega) (by omega)
        have hk0 : k = 0 := by omega
        have hz : p.length - c = 0 := by omega
        rw [hz, Nat.div_eq_of_lt (by omega), hk0]
      · rw [show p.length - c + c - 1 = p.length - 1 from by omega]
        rw [show p.length + c - 1 = (p.length - 1) + c from by omega,
          Nat.add_div_right _ hc] at hk
        omega
    have hfun : ∀ i : Nat,
        ((p.drop (Nat.succ i * c)).take c) = (((p.drop c).drop (i * c)).take c) := by
      intro i
      rw [List.drop_drop]
      rw [show Nat.succ i * c = c + i * c from by rw [Nat.succ_mul]; omega]
    rw [List.range_succ_eq_map]
    simp only [List.flatMap_cons, List.flatMap_map, Function.comp,
      Nat.zero_mul, List.drop_zero]
    simp only [hfun]
    rw [ih (p.drop c) hk']
    exact List.take_append_drop c p

/-- C3 counterexample.  The chunk count is cast to uint32
(`totalChunks := uint32((len+chunkSize-1)/chunkSize)`), so the claim's
`total_chunks = ⌈L / chunk_size⌉` fails once the ceiling reaches 2^32:
with chunkSize = 1 and a 2^32-byte payload, the emitted sequence is a
StreamHeader with total_chunks = 0 followed immediately by the END
marker — no chunks at all, and their concatenation is empty, not the
payload. -/
theorem claim_C3_counterexample :
    sendMessage ⟨1, 1, true⟩ 7 4 (.raw (List.replicate (2 ^ 32) 0))
      = [⟨messageTypeStreamStart, 4, .streamHeader ⟨7, 2 ^ 32, 0⟩⟩,
         ⟨messageTypeStreamEnd, 4, .raw []⟩] := by
  have key : ∀ p : List Nat, p.length = 2 ^ 32 →
      sendMessage ⟨1, 1, true⟩ 7 4 (.raw p)
        = [⟨messageTypeStreamStart, 4, .streamHeader ⟨7, 2 ^ 32, 0⟩⟩,
           ⟨messageTypeStreamEnd, 4, .raw []⟩] := by
    intro p hlen
    rw [sendMessage]
    simp only [marshalPayload]
    rw [if_pos ⟨trivial, by rw [hlen]; norm_num⟩]
    rw [sendStreamed]
    rw [hlen]
    norm_num [List.range_zero]
  exact key _ (List.length_replicate _ _)

/-- C3 (amended).  With streaming enabled, a payload at least as long as
the threshold, and a chunk count `⌈L / chunkSize⌉` that fits in uint32
(below 2^32, as the source's uint32 cast requires), SendMessage
delegates to sendStreamed, which emits, all under the same message id
and in order: one type-250 StreamHeader carrying the original type, the
total size and `⌈L / chunkSize⌉` chunks; one type-251 StreamChunk per
index `i` carrying `payload[i·chunk .. min((i+1)·chunk, L)]`; and one
type-252 end marker with empty payload.  Concatenating the chunk data
fields in index order gives back the payload. -/
theorem claim_C3 (cfg : StreamConfig) (t id : Nat) (p : List Nat)
    (hen : cfg.enabled = true) (hth : cfg.threshold ≤ p.length)
    (hc : 0 < cfg.chunkSize)
    (hb : (p.length + cfg.chunkSize - 1) / cfg.chunkSize < 2 ^ 32) :
    sendMessage cfg t id (.raw p)
      = ⟨messageTypeStreamStart, id, .streamHeader
            ⟨t, p.length, (p.length + cfg.chunkSize - 1) / cfg.chunkSize⟩⟩
        :: (((List.range ((p.length + cfg.chunkSize - 1) / cfg.chunkSize)).map fun i =>
              ⟨messageTypeStreamChunk, id,
                .streamChunk ⟨i, (p.drop (i * cfg.chunkSize)).take cfg.chunkSize⟩⟩)
          ++ [⟨messageTypeStreamEnd, id, .raw []⟩])
    ∧ ((List.range ((p.length + cfg.chunkSize - 1) / cfg.chunkSize)).flatMap
        fun i => (p.drop (i * cfg.chunkSize)).take cfg.chunkSize) = p := by
  constructor
  · rw [sendMessage]
    simp only [marshalPayload]
    rw [if_pos ⟨hen, hth⟩]
    rw [sendStreamed]
    rw [Nat.mod_eq_of_lt hb]
    exact rfl
  · exact chunks_flatMap_eq cfg.chunkSize hc _ p rfl

theorem claim_C3_witness :
    (⟨2, 2, true⟩ : StreamConfig).enabled = true ∧
    (⟨2, 2, true⟩ : StreamConfig).threshold ≤ ([1, 2, 3] : List Nat).length ∧
    (sendMessage ⟨2, 2, true⟩ 7 4 (.raw [1, 2, 3])
      = ⟨messageTypeStreamStart, 4, .streamHeader
            ⟨7, ([1, 2, 3] : List Nat).length,
              (([1, 2, 3] : List Nat).length + (2 : Nat) - 1) / 2⟩⟩
        :: (((List.range ((([1, 2, 3] : List Nat).length + (2 : Nat) - 1) / 2)).map fun i =>
              ⟨messageTypeStreamChunk, 4,
                .streamChunk ⟨i, (([1, 2, 3] : List Nat).drop (i * 2)).take 2⟩⟩)
          ++ [⟨messageTypeStreamEnd, 4, .raw []⟩])
      ∧ ((List.range ((([1, 2, 3] : List Nat).length + (2 : Nat) - 1) / 2)).flatMap
          fun i => (([1, 2, 3] : List Nat).drop (i * 2)).take 2) = [1, 2, 3]) :=
  ⟨rfl, by decide,
    claim_C3 ⟨2, 2, true⟩ 7 4 [1, 2, 3] rfl (by decide) (by decide) (by decide)⟩

/-! ## C4: duplicate chunks and premature completion -/

theorem alLookup_alInsert_self {α : Type} (k : Nat) (v : α) :
    ∀ m : List (Nat × α), alLookup k (alInsert k v m) = some v := by
  intro m
  induction m with
  | nil => simp [alInsert, alLookup]
  | cons kv rest ih =>
    by_cases h : kv.1 = k
    · simp [alInsert, h, alLookup]
    · simp only [alInsert, h, if_false]
      simpa [alLookup, h] using ih

theorem alInsert_map_fst {α : Type} (k : Nat) (v : α) :
    ∀ m : List (Nat × α),
      (alInsert k v m).map Prod.fst
        = if k ∈ m.map Prod.fst then m.map Prod.fst else m.map Prod.fst ++ [k] := by
  intro m
  induction m with
  | nil => simp [alInsert]
  | cons kv rest ih =>
    by_cases h : kv.1 = k
    · simp [alInsert, h]
    · have hne : ¬ k = kv.1 := fun hc => h hc.symm
      simp only [alInsert, h, if_false, List.map_cons, List.mem_cons]
      rw [ih]
      by_cases hmem : k ∈ rest.map Prod.fst
      · simp [hmem, hne]
      · simp [hmem, hne]

theorem alLookup_eq_none_iff {α : Type} (k : Nat) :
    ∀ m : List (Nat × α), alLookup k m = none ↔ k ∉ m.map Prod.fst := by
  intro m
  induction m with
  | nil => simp [alLookup]
  | cons kv rest ih =>
    by_cases h : kv.1 = k
    · simp [alLookup, h]
    · have hne : ¬ k = kv.1 := fun hc => h hc.symm
      simp [alLookup, h, hne, ih]

/-- The mutation addChunk performs on the assembler it finds: store the
chunk under its index (map insert), increment `received`. -/
def stepChunkA (a : StreamAssembler) (ch : StreamChunk) : StreamAssembler :=
  { a with chunks := alInsert ch.chunkIndex ch.data a.chunks,
           received := a.received + 1 }

theorem addChunk_found (s : ProtoState) (msgID : Nat) (ch : StreamChunk)
    (a : StreamAssembler) (h : alLookup msgID s.activeStreams = some a) :
    addChunk s msgID ch
      = (decide (a.received + 1 = a.header.totalChunks),
         (if a.received + 1 = a.header.totalChunks
          then assembleStream (stepChunkA a ch) else []),
         ⟨alInsert msgID (stepChunkA a ch) s.activeStreams⟩) := by
  rw [addChunk, h]
  simp only [stepChunkA]
  by_cases hc : a.received + 1 = a.header.totalChunks
  · simp [hc]
  · simp [hc]

theorem foldl_addChunk_singleton (msgID : Nat) :
    ∀ (cs : List StreamChunk) (a : StreamAssembler),
      cs.foldl (fun s ch => (addChunk s msgID ch).2.2) ⟨[(msgID, a)]⟩
        = ⟨[(msgID, cs.foldl stepChunkA a)]⟩ := by
  intro cs
  induction cs with
  | nil => intro a; rfl
  | cons ch rest ih =>
    intro a
    have hstep : (addChunk ⟨[(msgID, a)]⟩ msgID ch).2.2 = ⟨[(msgID, stepChunkA a ch)]⟩ := by
      rw [addChunk_found ⟨[(msgID, a)]⟩ msgID ch a (by simp [alLookup])]
      simp [alInsert]
    simp only [List.foldl_cons, hstep]
    exact ih (stepChunkA a ch)

theorem foldl_stepChunkA_received :
    ∀ (cs : List StreamChunk) (a : StreamAssembler),
      (cs.foldl stepChunkA a).received = a.received + cs.length := by
  intro cs
  induction cs with
  | nil => intro a; simp
  | cons ch rest ih =>
    intro a
    simp only [List.foldl_cons, ih, stepChunkA, List.length_cons]
    omega

theorem foldl_stepChunkA_header :
    ∀ (cs : List StreamChunk) (a : StreamAssembler),
      (cs.foldl stepChunkA a).header = a.header := by
  intro cs
  induction cs with
  | nil => intro a; rfl
  | cons ch rest ih => intro a; simp only [List.foldl_cons, ih, stepChunkA]

theorem foldl_stepChunkA_keys_nodup :
    ∀ (cs : List StreamChunk) (a : StreamAssembler),
      (a.chunks.map Prod.fst).Nodup → ((cs.foldl stepChunkA a).chunks.map Prod.fst).Nodup := by
  intro cs
  induction cs with
  | nil => intro a h; exact h
  | cons ch rest ih =>
    intro a h
    simp only [List.foldl_cons]
    apply ih
    simp only [stepChunkA, alInsert_map_fst]
    by_cases hmem : ch.chunkIndex ∈ a.chunks.map Prod.fst
    · simpa [hmem] using h
    · simp only [hmem, if_false]
      simp [List.nodup_append, h, hmem]

theorem foldl_stepChunkA_keys_subset :
    ∀ (cs : List StreamChunk) (a : StreamAssembler),
      ((cs.foldl stepChunkA a).chunks.map Prod.fst)
        ⊆ a.chunks.map Prod.fst ++ cs.map StreamChunk.chunkIndex := by
  intro cs
  induction cs with
  | nil => intro a; simp
  | cons ch rest ih =>
    intro a
    simp only [List.foldl_cons]
    intro x hx
    have := ih (stepChunkA a ch) hx
    simp only [stepChunkA, alInsert_map_fst] at this
    by_cases hmem : ch.chunkIndex ∈ a.chunks.map Prod.fst
    · rw [if_pos hmem] at this
      simp only [List.mem_append] at this ⊢
      simp only [List.map_cons, List.mem_cons]
      tauto
    · rw [if_neg hmem] at this
      simp only [List.mem_append, List.mem_singleton] at this
      simp only [List.mem_append, List.map_cons, List.mem_cons]
      tauto

/-- C4.  addChunk on a chunk whose index is already stored overwrites the
stored bytes (last write wins) and still increments `received`, reporting
completion exactly when the incremented counter reaches the header's
total; consequently, after `total_chunks` chunk events at least one of
which repeats an index, the assembler's counter equals `total_chunks`
(it is treated as complete) even though some index in
`[0, total_chunks)` has no stored chunk. -/
theorem claim_C4 :
    (∀ (s : ProtoState) (msgID : Nat) (ch : StreamChunk) (a : StreamAssembler)
      (old : List Nat),
      alLookup msgID s.activeStreams = some a →
      alLookup ch.chunkIndex a.chunks = some old →
      ∃ a', alLookup msgID ((addChunk s msgID ch).2.2).activeStreams = some a' ∧
        alLookup ch.chunkIndex a'.chunks = some ch.data ∧
        a'.received = a.received + 1 ∧
        (addChunk s msgID ch).1 = decide (a.received + 1 = a.header.totalChunks)) ∧
    (∀ (h : StreamHeader) (msgID : Nat) (cs : List StreamChunk),
      cs.length = h.totalChunks →
      ¬ (cs.map StreamChunk.chunkIndex).Nodup →
      ∃ a, alLookup msgID
          ((cs.foldl (fun s ch => (addChunk s msgID ch).2.2)
            (startStream ⟨[]⟩ msgID h)).activeStreams) = some a ∧
        a.received = h.totalChunks ∧
        ∃ i, i < h.totalChunks ∧ alLookup i a.chunks = none) := by
  constructor
  · intro s msgID ch a old hfind _hidx
    refine ⟨stepChunkA a ch, ?_, ?_, rfl, ?_⟩
    · rw [addChunk_found s msgID ch a hfind]
      exact alLookup_alInsert_self msgID (stepChunkA a ch) s.activeStreams
    · exact alLookup_alInsert_self ch.chunkIndex ch.data a.chunks
    · rw [addChunk_found s msgID ch a hfind]
  · intro h msgID cs hlen hdup
    have hstart : startStream ⟨[]⟩ msgID h
        = (⟨[(msgID, ⟨h, [], 0⟩)]⟩ : ProtoState) := rfl
    rw [hstart, foldl_addChunk_singleton msgID cs ⟨h, [], 0⟩]
    refine ⟨cs.foldl stepChunkA ⟨h, [], 0⟩, alLookup_alInsert_self msgID _ [], ?_, ?_⟩
    · rw [foldl_stepChunkA_received]
      simpa using hlen
    · set keys := (cs.foldl stepChunkA ⟨h, [], 0⟩).chunks.map Prod.fst with hkeys
      have hnodup : keys.Nodup := foldl_stepChunkA_keys_nodup cs ⟨h, [], 0⟩ (by simp)
      have hsub : keys ⊆ cs.map StreamChunk.chunkIndex := by
        have := foldl_stepChunkA_keys_subset cs ⟨h, [], 0⟩
        simpa using this
      have hcard : keys.toFinset.card < h.totalChunks := by
        have h1 : keys.toFinset.card = keys.length := List.toFinset_card_of_nodup hnodup
        have h2 : keys.toFinset ⊆ (cs.map StreamChunk.chunkIndex).toFinset := by
          intro x hx
          rw [List.mem_toFinset] at hx ⊢
          exact hsub hx
        have h3 : (cs.map StreamChunk.chunkIndex).toFinset.card
            = (cs.map StreamChunk.chunkIndex).dedup.length := List.card_toFinset _
        have h4 : (cs.map StreamChunk.chunkIndex).dedup.length
            < (cs.map StreamChunk.chunkIndex).length := by
          have hsl := List.dedup_sublist (cs.map StreamChunk.chunkIndex)
          have hle := hsl.length_le
          rcases Nat.lt_or_ge (cs.map StreamChunk.chunkIndex).dedup.length
              (cs.map StreamChunk.chunkIndex).length with hlt | hge
          · exact hlt
          · exfalso
            have heq := hsl.eq_of_length (by omega)
            exact hdup (List.dedup_eq_self.mp heq)
        have h5 := Finset.card_le_card h2
        have h6 : (cs.map StreamChunk.chunkIndex).length = h.totalChunks := by
          simpa using hlen
        omega
      have hnotsub : ¬ (Finset.range h.totalChunks ⊆ keys.toFinset) := by
        intro hsubf
        have := Finset.card_le_card hsubf
        rw [Finset.card_range] at this
        omega
      rcases Finset.not_subset.mp hnotsub with ⟨i, hi_mem, hi_not⟩
      rw [Finset.mem_range] at hi_mem
      refine ⟨i, hi_mem, ?_⟩
      rw [alLookup_eq_none_iff]
      intro hc
      exact hi_not (List.mem_toFinset.mpr hc)

theorem claim_C4_witness :
    (([⟨0, [1]⟩, ⟨0, [2]⟩] : List StreamChunk).length
        = (⟨7, 2, 2⟩ : StreamHeader).totalChunks) ∧
    ¬ (([⟨0, [1]⟩, ⟨0, [2]⟩] : List StreamChunk).map StreamChunk.chunkIndex).Nodup ∧
    ∃ a, alLookup 4
        ((([⟨0, [1]⟩, ⟨0, [2]⟩] : List StreamChunk).foldl
            (fun s ch => (addChunk s 4 ch).2.2)
            (startStream ⟨[]⟩ 4 ⟨7, 2, 2⟩)).activeStreams) = some a ∧
      a.received = (⟨7, 2, 2⟩ : StreamHeader).totalChunks ∧
      ∃ i, i < (⟨7, 2, 2⟩ : StreamHeader).totalChunks ∧ alLookup i a.chunks = none :=
  ⟨by decide, by decide,
    claim_C4.2 ⟨7, 2, 2⟩ 4 [⟨0, [1]⟩, ⟨0, [2]⟩] (by decide) (by decide)⟩

/-! ## C10: strict mode and streamed messages -/

/-- C10 counterexample.  With strict mode enabled and the default global
registry, a full streamed sequence (START, two CHUNKs, END) for an
unregistered original type 7 does NOT make ReceiveMessage fail: the call
returns the reassembled logical message already at the final chunk
(whose assembled payload is decoded non-strictly), leaving the type-252
END frame unconsumed in the queue. -/
theorem claim_C10_counterexample :
    receiveMessage (some ⟨none, none, none, none, true⟩)
      [[250, 0, 0, 0, 4, 0, 0, 0, 3, 7, 3, 2, 0, 0, 0, 0],
       [251, 0, 0, 0, 4, 0, 0, 0, 4, 0, 2, 1, 2, 0, 0, 0, 0],
       [251, 0, 0, 0, 4, 0, 0, 0, 3, 1, 1, 3, 0, 0, 0, 0],
       [252, 0, 0, 0, 4, 0, 0, 0, 0, 0, 0, 0, 0]] ⟨[]⟩
      = .ok (⟨7, 4, [1, 2, 3], []⟩, .raw [1, 2, 3],
             [[252, 0, 0, 0, 4, 0, 0, 0, 0, 0, 0, 0, 0]], ⟨[]⟩) := by
  decide

/-- C10 (amended).  With strict mode enabled, the streamed message itself
is still delivered (reassembly completes at the last chunk and decodes
the assembled payload non-strictly, bypassing strict mode), but the
trailing type-252 STREAM_END frame — for which the registry pre-installs
no factory (only 250 and 251) — is left in the queue, and the next
ReceiveMessage call fails with the unknown-message-type error while
parsing it. -/
theorem claim_C10 :
    (∀ (id : Nat) (rest : List (List Nat)) (st : ProtoState)
      (cfg : Option StreamConfig), id < 2 ^ 32 →
      receiveMessage (some ⟨none, none, none, cfg, true⟩)
        ((252 :: (writeUint32BE id ++ (writeUint32BE 0 ++ writeUint32BE 0))) :: rest) st
        = .error .unknownMessageType) ∧
    receiveMessage (some ⟨none, none, none, none, true⟩)
      [[252, 0, 0, 0, 4, 0, 0, 0, 0, 0, 0, 0, 0]] ⟨[]⟩
      = .error .unknownMessageType := by
  constructor
  · intro id rest st cfg hid
    have hunm := unmarshalMessage_strictOpts 252 id [] cfg true
      (by simp [maxPayloadSize]) hid
    simp only [List.length_nil, List.nil_append] at hunm
    rw [unmarshalPayloadStrict_unregistered 252 [] (by decide) (by decide) true] at hunm
    simp only [if_pos rfl, Bool.true_eq] at hunm
    rw [receiveMessage, hunm]
    simp
  · decide

theorem claim_C10_witness :
    (4 : Nat) < 2 ^ 32 ∧
    receiveMessage (some ⟨none, none, none, none, true⟩)
      ((252 :: (writeUint32BE 4 ++ (writeUint32BE 0 ++ writeUint32BE 0))) :: []) ⟨[]⟩
      = .error .unknownMessageType :=
  ⟨by decide, claim_C10.1 4 [] ⟨[]⟩ none (by decide)⟩

end RdgProto
